import Mathlib

/-!
Verification of the conditional command-polling engine of
`src/modules/network/ne/ne_command.py` (module `ne_command`).

The core under study is the body of `main` (lines 209-246): parse the
`wait_for` strings into `Conditional` objects, then repeatedly execute the
command batch, remove satisfied conditions (or short-circuit under the `any`
match policy), sleep and decrement the retry counter between rounds, and
finally either fail with the raw strings of the still-outstanding conditions
or return the last round's responses together with their newline-split view.

External collaborators (the transport running the commands, and the imported
`Conditional` parser/evaluator from `ansible.module_utils.network.common.parsing`,
which is not part of this repository) are abstracted as function parameters:
`exec_fn` maps a command batch and a round number to that round's ResponseSet,
and `parse` maps a raw condition string to `none` (parse failure) or to the
boolean predicate the parsed conditional denotes over a ResponseSet.
-/

namespace NeCommand

/-- The `match` module parameter: `all` or `any` (ne_command.py line 191). -/
inductive MatchPolicy
  | all
  | any
deriving DecidableEq, Repr

/-- A command entry as produced by `parse_commands` (lines 159-175):
`{ command, prompt, answer }`.  Only `command` matters to the loop; the other
fields are opaque pass-through data for the transport. -/
structure Command where
  command : String
  prompt : Option String := none
  answer : Option String := none

/-- Modelled from the spec: one `Conditional` object built at line 212 from a
raw `wait_for` string.  The class itself lives outside this repository, so its
parsed form is abstracted to the predicate `test` it denotes on a ResponseSet,
together with the retained raw string (`item.raw`, read at line 237).  `idx`
records the object identity of the freshly constructed instance — Python's
`list.remove` at line 228 removes by object equality, which for these
distinct fresh objects is identity; `idx` is the position in `wait_for`. -/
structure Conditional where
  idx : Nat
  raw : String
  test : List String → Bool

/-- Observable events of one run: a call to the execution collaborator
`run_commands` (line 221, tagged with its round number), a `time.sleep`
of the given number of seconds (line 233), and the decrement of the retry
counter (line 234). -/
inductive Event
  | exec (round : Nat)
  | sleep (seconds : Int)
  | decr
deriving DecidableEq, Repr

/-- Final observable outcome of a run:
`ok` models `module.exit_json` with `stdout`/`stdout_lines` (lines 241-246);
`failed` models the `module.fail_json` with `failed_conditions` (lines 236-239);
`invalidCondition` models the `module.fail_json` in the parse `except`
branch (line 214); `crash` models the unhandled `UnboundLocalError` raised at
line 242 when `responses` was never assigned because the loop body never ran. -/
inductive RunResult
  | ok (stdout : List String) (stdout_lines : List (List String))
  | failed (failed_conditions : List String)
  | invalidCondition
  | crash
deriving DecidableEq, Repr

/-- Outcome together with the trace of collaborator calls, sleeps and
retry-counter decrements, in program order. -/
structure RunOutput where
  outcome : RunResult
  trace : List Event
deriving DecidableEq, Repr

/-- `to_lines` (lines 150-156): every element of a ResponseSet is a raw text
string in this model, so each element is split on the newline character. -/
def to_lines (stdout : List String) : List (List String) :=
  stdout.map (fun item => item.splitOn "\n")

/-- Python's `conditionals.remove(item)` (line 228): remove the first element
whose object identity (`idx`) matches. -/
def removeById (i : Nat) : List Conditional → List Conditional
  | [] => []
  | c :: rest => if c.idx = i then rest else c :: removeById i rest

/-- The `for item in list(conditionals)` loop of lines 223-228: iterate over a
snapshot (`snap`) of the working list while mutating the working list
(`working`).  A satisfied item clears the whole list and stops under `any`
(lines 225-227), or is removed from the working list under `all` (line 228);
an unsatisfied item is left in place. -/
def forRound (p : MatchPolicy) (rs : List String) :
    List Conditional → List Conditional → List Conditional
  | [], working => working
  | item :: snap, working =>
    if item.test rs then
      match p with
      | .any => []
      | .all => forRound .all rs snap (removeById item.idx working)
    else forRound p rs snap working

/-- One evaluation round: the snapshot is the working list itself
(`list(conditionals)` at line 223). -/
def evalRound (p : MatchPolicy) (rs : List String) (conds : List Conditional) :
    List Conditional :=
  forRound p rs conds conds

/-- State left by the `while` loop: the `conditionals` variable, the
`responses` variable (`none` while never assigned), and the event trace. -/
structure LoopResult where
  conditionals : List Conditional
  responses : Option (List String)
  trace : List Event

/-- The `while retries > 0` loop of lines 220-234.  Each iteration executes
the batch (line 221), evaluates the outstanding conditionals (lines 223-228),
breaks on an empty outstanding set (lines 230-231), and otherwise sleeps for
`interval` seconds and decrements `retries` (lines 233-234).  `round` counts
collaborator calls so that `exec_fn` can return a fresh ResponseSet each
round; `retries` is an `int` in the source, hence `Int` here. -/
def loop (exec_fn : Nat → List String) (p : MatchPolicy) (interval : Int)
    (retries : Int) (round : Nat) (responses : Option (List String))
    (conds : List Conditional) (trace : List Event) : LoopResult :=
  if h : 0 < retries then
    let rs := exec_fn round
    let conds' := evalRound p rs conds
    if conds'.isEmpty then
      ⟨conds', some rs, trace ++ [.exec round]⟩
    else
      loop exec_fn p interval (retries - 1) (round + 1) (some rs) conds'
        (trace ++ [.exec round, .sleep interval, .decr])
  else
    ⟨conds, responses, trace⟩
termination_by retries.toNat
decreasing_by omega

/-- Modelled from the spec: the list comprehension
`[Conditional(c) for c in wait_for]` (line 212).  The imported `Conditional`
constructor is abstracted by `parse`; a `none` result models the exception
that aborts the comprehension.  Fresh object identities are the positions
`i, i+1, ...` in `wait_for`. -/
def mkConditionals (parse : String → Option (List String → Bool)) :
    Nat → List String → Option (List Conditional)
  | _, [] => some []
  | i, s :: rest =>
    match parse s with
    | none => none
    | some t => (mkConditionals parse (i + 1) rest).map (fun cs => ⟨i, s, t⟩ :: cs)

/-- The core of `main` (lines 209-246), with the host-framework glue
(argument parsing, check-mode warnings) outside the model.  A parse failure
is reported immediately (lines 211-214); then the retry loop runs; then
either the retry-exhaustion failure carries the raw strings of the
outstanding conditionals (lines 236-239), or the success path reads
`responses` — which raises an unhandled error (`crash`) when the loop body
never ran and the variable was never assigned (lines 241-246). -/
def main (commands : List Command)
    (exec_fn : List Command → Nat → List String)
    (parse : String → Option (List String → Bool))
    (wait_for : List String) (p : MatchPolicy)
    (retries interval : Int) : RunOutput :=
  match mkConditionals parse 0 wait_for with
  | none => ⟨.invalidCondition, []⟩
  | some conds =>
    let r := loop (exec_fn commands) p interval retries 0 none conds []
    if r.conditionals.isEmpty then
      match r.responses with
      | some responses => ⟨.ok responses (to_lines responses), r.trace⟩
      | none => ⟨.crash, r.trace⟩
    else
      ⟨.failed (r.conditionals.map (fun item => item.raw)), r.trace⟩

/-- The trace produced by `n` consecutive rounds that all end with a
non-empty outstanding set, starting at round `r`: each round is an execution
followed by a sleep of `interval` seconds followed by a retry decrement. -/
def roundTrace (interval : Int) : Nat → Nat → List Event
  | _, 0 => []
  | r, n + 1 => .exec r :: .sleep interval :: .decr :: roundTrace interval (r + 1) n

/-- Number of calls to the execution collaborator recorded in a trace. -/
def countExecs (tr : List Event) : Nat :=
  (tr.filter (fun e => match e with | .exec _ => true | _ => false)).length

/-- Number of sleeps recorded in a trace. -/
def countSleeps (tr : List Event) : Nat :=
  (tr.filter (fun e => match e with | .sleep _ => true | _ => false)).length

/-- The outstanding condition set after `n` consecutive non-breaking rounds,
starting from `conds` at absolute round `r`: each round applies exactly the
evaluation step the loop performs on its `conditionals` variable
(`loop_continue` below shows the loop continues with
`evalRound p (exec_fn round) conds` at round `round + 1`). -/
def outstandingFrom (p : MatchPolicy) (exec_fn : Nat → List String) :
    Nat → List Conditional → Nat → List Conditional
  | _, conds, 0 => conds
  | r, conds, n + 1 =>
    outstandingFrom p exec_fn (r + 1) (evalRound p (exec_fn r) conds) n

/-! ### Helper lemmas about one evaluation round -/

theorem forRound_unsat (p : MatchPolicy) (rs : List String) :
    ∀ snap working : List Conditional, (∀ c ∈ snap, c.test rs = false) →
      forRound p rs snap working = working := by
  intro snap
  induction snap with
  | nil => intro working _; rfl
  | cons item snap ih =>
    intro working h
    have hi : item.test rs = false := h item (List.mem_cons_self item snap)
    simp only [forRound, hi, Bool.false_eq_true, if_false]
    exact ih working (fun c hc => h c (List.mem_cons_of_mem item hc))

theorem evalRound_unsat (p : MatchPolicy) (rs : List String)
    (conds : List Conditional) (h : ∀ c ∈ conds, c.test rs = false) :
    evalRound p rs conds = conds :=
  forRound_unsat p rs conds conds h

theorem forRound_any_sat (rs : List String) (item : Conditional)
    (hitem : item.test rs = true) :
    ∀ pre post working : List Conditional, (∀ c ∈ pre, c.test rs = false) →
      forRound .any rs (pre ++ item :: post) working = [] := by
  intro pre
  induction pre with
  | nil => intro post working _; simp [forRound, hitem]
  | cons c pre ih =>
    intro post working h
    have hc : c.test rs = false := h c (List.mem_cons_self c pre)
    simp only [List.cons_append, forRound, hc, Bool.false_eq_true, if_false]
    exact ih post working (fun d hd => h d (List.mem_cons_of_mem c hd))

theorem removeById_append_left (i : Nat) :
    ∀ kept l : List Conditional, (∀ c ∈ kept, c.idx ≠ i) →
      removeById i (kept ++ l) = kept ++ removeById i l := by
  intro kept
  induction kept with
  | nil => intro l _; rfl
  | cons c kept ih =>
    intro l h
    have hc : c.idx ≠ i := h c (List.mem_cons_self c kept)
    simp only [List.cons_append, removeById, hc, if_false, List.append_eq]
    rw [ih l (fun d hd => h d (List.mem_cons_of_mem c hd))]

theorem removeById_cons_self (item : Conditional) (l : List Conditional) :
    removeById item.idx (item :: l) = l := by
  simp [removeById]

theorem forRound_all_filter (rs : List String) :
    ∀ snap kept : List Conditional,
      ((kept ++ snap).map Conditional.idx).Nodup →
      forRound .all rs snap (kept ++ snap) =
        kept ++ snap.filter (fun c => ! c.test rs) := by
  intro snap
  induction snap with
  | nil => intro kept _; simp [forRound]
  | cons item snap ih =>
    intro kept h
    have hkept : ∀ c ∈ kept, c.idx ≠ item.idx := by
      intro c hc heq
      have h' := h
      rw [List.map_append, List.nodup_append] at h'
      exact h'.2.2 (List.mem_map_of_mem Conditional.idx hc)
        (by simp [heq])
    by_cases hi : item.test rs
    · have hrm : removeById item.idx (kept ++ item :: snap) = kept ++ snap := by
        rw [removeById_append_left item.idx kept (item :: snap) hkept,
          removeById_cons_self]
      have hnd : ((kept ++ snap).map Conditional.idx).Nodup :=
        List.Nodup.sublist
          (List.Sublist.map Conditional.idx
            (List.Sublist.append_left (List.sublist_cons_self item snap) kept)) h
      simp only [forRound, hi, if_true, hrm]
      rw [ih kept hnd]
      simp [List.filter_cons, hi]
    · have hi' : item.test rs = false := by
        cases hb : item.test rs
        · rfl
        · exact absurd hb hi
      have hsplit : kept ++ item :: snap = (kept ++ [item]) ++ snap := by simp
      simp only [forRound, hi', Bool.false_eq_true, if_false]
      rw [hsplit, ih (kept ++ [item]) (by rw [← hsplit]; exact h)]
      simp [List.filter_cons, hi']

theorem evalRound_all_filter (rs : List String) (conds : List Conditional)
    (h : (conds.map Conditional.idx).Nodup) :
    evalRound .all rs conds = conds.filter (fun c => ! c.test rs) := by
  have := forRound_all_filter rs conds [] (by simpa using h)
  simpa [evalRound] using this

/-! ### Helper lemmas about the comprehension building the conditionals -/

theorem mkConditionals_map_idx (parse : String → Option (List String → Bool)) :
    ∀ (ws : List String) (i : Nat) (conds : List Conditional),
      mkConditionals parse i ws = some conds →
      conds.map Conditional.idx = List.range' i ws.length := by
  intro ws
  induction ws with
  | nil =>
    intro i conds h
    simp only [mkConditionals, Option.some.injEq] at h
    subst h
    simp
  | cons s ws ih =>
    intro i conds h
    rw [mkConditionals] at h
    cases hp : parse s with
    | none => rw [hp] at h; exact absurd h (by simp)
    | some t =>
      rw [hp] at h
      simp only [Option.map_eq_some'] at h
      obtain ⟨cs, hcs, rfl⟩ := h
      simp only [List.map_cons, List.length_cons, List.range'_succ]
      rw [ih (i + 1) cs hcs]

theorem mkConditionals_idx_nodup (parse : String → Option (List String → Bool))
    (ws : List String) (i : Nat) (conds : List Conditional)
    (h : mkConditionals parse i ws = some conds) :
    (conds.map Conditional.idx).Nodup := by
  rw [mkConditionals_map_idx parse ws i conds h]
  exact List.nodup_range' i ws.length

theorem mkConditionals_none_of_mem (parse : String → Option (List String → Bool)) :
    ∀ (ws : List String) (s : String), s ∈ ws → parse s = none →
      ∀ i, mkConditionals parse i ws = none := by
  intro ws
  induction ws with
  | nil => intro s hs; exact absurd hs (List.not_mem_nil s)
  | cons w ws ih =>
    intro s hs hp i
    rw [mkConditionals]
    rcases List.mem_cons.mp hs with h | h
    · subst h; rw [hp]
    · cases hw : parse w
      · rfl
      · rw [ih s h hp (i + 1)]; rfl

/-! ### Helper lemmas about the retry loop -/

theorem loop_nonpos (exec_fn : Nat → List String) (p : MatchPolicy)
    (interval retries : Int) (round : Nat) (resp : Option (List String))
    (conds : List Conditional) (tr : List Event) (h : retries ≤ 0) :
    loop exec_fn p interval retries round resp conds tr = ⟨conds, resp, tr⟩ := by
  rw [loop.eq_def]
  simp [show ¬ (0 < retries) by omega]

theorem loop_continue (exec_fn : Nat → List String) (p : MatchPolicy)
    (interval retries : Int) (round : Nat) (resp : Option (List String))
    (conds : List Conditional) (tr : List Event) (h : 0 < retries)
    (hne : evalRound p (exec_fn round) conds ≠ []) :
    loop exec_fn p interval retries round resp conds tr =
      loop exec_fn p interval (retries - 1) (round + 1) (some (exec_fn round))
        (evalRound p (exec_fn round) conds)
        (tr ++ [.exec round, .sleep interval, .decr]) := by
  rw [loop.eq_def]
  simp [h, List.isEmpty_iff, hne]

theorem loop_success (exec_fn : Nat → List String) (p : MatchPolicy)
    (interval retries : Int) (round : Nat) (resp : Option (List String))
    (conds : List Conditional) (tr : List Event) (h : 0 < retries)
    (hsat : evalRound p (exec_fn round) conds = []) :
    loop exec_fn p interval retries round resp conds tr =
      ⟨[], some (exec_fn round), tr ++ [.exec round]⟩ := by
  rw [loop.eq_def]
  simp [h, List.isEmpty_iff, hsat]

theorem loop_unsat (exec_fn : Nat → List String) (p : MatchPolicy)
    (interval : Int) (conds : List Conditional) (hne : conds ≠ [])
    (hns : ∀ n, ∀ c ∈ conds, c.test (exec_fn n) = false) :
    ∀ (R : Nat) (retries : Int), retries.toNat = R →
      ∀ (round : Nat) (resp : Option (List String)) (tr : List Event),
        loop exec_fn p interval retries round resp conds tr =
          ⟨conds,
            (loop exec_fn p interval retries round resp conds tr).responses,
            tr ++ roundTrace interval round R⟩ := by
  intro R
  induction R with
  | zero =>
    intro retries h round resp tr
    rw [loop_nonpos exec_fn p interval retries round resp conds tr (by omega)]
    simp [roundTrace]
  | succ R ih =>
    intro retries h round resp tr
    have h0 : 0 < retries := by omega
    have hc : evalRound p (exec_fn round) conds = conds :=
      evalRound_unsat p (exec_fn round) conds (hns round)
    rw [loop_continue exec_fn p interval retries round resp conds tr h0
      (by rw [hc]; exact hne)]
    rw [hc]
    rw [ih (retries - 1) (by omega)]
    simp [roundTrace]

/-! ### Counting events in a round trace -/

theorem countExecs_roundTrace (interval : Int) :
    ∀ n r, countExecs (roundTrace interval r n) = n := by
  intro n
  induction n with
  | zero => intro r; rfl
  | succ n ih =>
    intro r
    simp only [roundTrace, countExecs, List.filter_cons] at *
    simp [ih]

theorem countSleeps_roundTrace (interval : Int) :
    ∀ n r, countSleeps (roundTrace interval r n) = n := by
  intro n
  induction n with
  | zero => intro r; rfl
  | succ n ih =>
    intro r
    simp only [roundTrace, countSleeps, List.filter_cons] at *
    simp [ih]

/-! ### Helper lemmas about the iterated outstanding set -/

theorem outstandingFrom_succ_back (p : MatchPolicy) (exec_fn : Nat → List String) :
    ∀ (n r : Nat) (conds : List Conditional),
      outstandingFrom p exec_fn r conds (n + 1) =
        evalRound p (exec_fn (r + n)) (outstandingFrom p exec_fn r conds n) := by
  intro n
  induction n with
  | zero => intro r conds; simp [outstandingFrom]
  | succ n ih =>
    intro r conds
    rw [show outstandingFrom p exec_fn r conds (n + 1 + 1) =
        outstandingFrom p exec_fn (r + 1) (evalRound p (exec_fn r) conds) (n + 1)
      from rfl]
    rw [ih (r + 1) (evalRound p (exec_fn r) conds)]
    rw [show outstandingFrom p exec_fn r conds (n + 1) =
        outstandingFrom p exec_fn (r + 1) (evalRound p (exec_fn r) conds) n
      from rfl]
    have e : r + 1 + n = r + (n + 1) := by omega
    rw [e]

theorem outstanding_all_nodup (exec_fn : Nat → List String) :
    ∀ (n r : Nat) (conds : List Conditional),
      (conds.map Conditional.idx).Nodup →
      ((outstandingFrom .all exec_fn r conds n).map Conditional.idx).Nodup := by
  intro n
  induction n with
  | zero => intro r conds hnd; exact hnd
  | succ n ih =>
    intro r conds hnd
    simp only [outstandingFrom]
    refine ih (r + 1) (evalRound .all (exec_fn r) conds) ?_
    rw [evalRound_all_filter (exec_fn r) conds hnd]
    exact List.Nodup.sublist
      (List.Sublist.map Conditional.idx (List.filter_sublist conds)) hnd

theorem outstanding_all_filter_succ (exec_fn : Nat → List String)
    (conds : List Conditional) (hnd : (conds.map Conditional.idx).Nodup)
    (n : Nat) :
    outstandingFrom .all exec_fn 0 conds (n + 1) =
      (outstandingFrom .all exec_fn 0 conds n).filter
        (fun c => ! c.test (exec_fn n)) := by
  rw [outstandingFrom_succ_back]
  simp only [Nat.zero_add]
  exact evalRound_all_filter (exec_fn n) _ (outstanding_all_nodup exec_fn n 0 conds hnd)

theorem outstanding_all_sublist (exec_fn : Nat → List String)
    (conds : List Conditional) (hnd : (conds.map Conditional.idx).Nodup) :
    ∀ m n : Nat, m ≤ n →
      List.Sublist (outstandingFrom .all exec_fn 0 conds n)
        (outstandingFrom .all exec_fn 0 conds m) := by
  intro m n h
  induction n, h using Nat.le_induction with
  | base => exact List.Sublist.refl _
  | succ n _ ih =>
    refine List.Sublist.trans ?_ ih
    rw [outstanding_all_filter_succ exec_fn conds hnd n]
    exact List.filter_sublist _

theorem loop_success_after (exec_fn : Nat → List String) (p : MatchPolicy)
    (interval : Int) :
    ∀ (k : Nat) (retries : Int) (round : Nat) (conds : List Conditional)
      (resp : Option (List String)) (tr : List Event),
      (k : Int) < retries →
      (∀ j : Nat, j < k →
        evalRound p (exec_fn (round + j))
          (outstandingFrom p exec_fn round conds j) ≠ []) →
      evalRound p (exec_fn (round + k))
        (outstandingFrom p exec_fn round conds k) = [] →
      loop exec_fn p interval retries round resp conds tr =
        ⟨[], some (exec_fn (round + k)),
          tr ++ roundTrace interval round k ++ [.exec (round + k)]⟩ := by
  intro k
  induction k with
  | zero =>
    intro retries round conds resp tr hk _ hsat
    have h0 : 0 < retries := by omega
    rw [loop_success exec_fn p interval retries round resp conds tr h0
      (by simpa using hsat)]
    simp [roundTrace]
  | succ k ih =>
    intro retries round conds resp tr hk hprev hsat
    have h0 : 0 < retries := by omega
    have hne0 : evalRound p (exec_fn round) conds ≠ [] := by
      have h := hprev 0 (Nat.succ_pos k)
      simpa [outstandingFrom] using h
    rw [loop_continue exec_fn p interval retries round resp conds tr h0 hne0]
    have hrec := ih (retries - 1) (round + 1) (evalRound p (exec_fn round) conds)
      (some (exec_fn round)) (tr ++ [.exec round, .sleep interval, .decr])
      (by omega)
      (by
        intro j hj
        have h := hprev (j + 1) (Nat.succ_lt_succ hj)
        simpa [outstandingFrom, show round + (j + 1) = round + 1 + j from by omega]
          using h)
      (by
        simpa [outstandingFrom, show round + (k + 1) = round + 1 + k from by omega]
          using hsat)
    rw [hrec]
    simp [roundTrace, List.append_assoc,
      show round + 1 + k = round + (k + 1) from by omega]

/-! ### Claim theorems -/

/-- Claim C1, amended: for every run whose parsed condition set is non-empty
and never satisfied, the run ends in the retry-exhaustion failure and the
number of calls to the execution collaborator is exactly `retries.toNat`
(that is, `retries` when `retries ≥ 0`) — not `retries + 1` — with exactly one
sleep per round; in particular when `retries == 0` the loop body never runs,
so there are zero execution attempts (not one) and no sleep before the
failure.  (When the loop does run, each execution still precedes the round's
retry decrement, as the `roundTrace` shape shows.) -/
theorem never_satisfied_executes_retries_times
    (commands : List Command) (exec_fn : List Command → Nat → List String)
    (parse : String → Option (List String → Bool)) (wait_for : List String)
    (p : MatchPolicy) (retries interval : Int) (conds : List Conditional)
    (hparse : mkConditionals parse 0 wait_for = some conds)
    (hne : conds ≠ [])
    (hns : ∀ n, ∀ c ∈ conds, c.test (exec_fn commands n) = false) :
    main commands exec_fn parse wait_for p retries interval =
      ⟨.failed (conds.map (fun item => item.raw)),
        roundTrace interval 0 retries.toNat⟩ ∧
    countExecs (roundTrace interval 0 retries.toNat) = retries.toNat ∧
    countSleeps (roundTrace interval 0 retries.toNat) = retries.toNat := by
  refine ⟨?_, countExecs_roundTrace interval _ 0, countSleeps_roundTrace interval _ 0⟩
  simp only [main, hparse]
  rw [loop_unsat (exec_fn commands) p interval conds hne hns retries.toNat retries rfl]
  simp [List.isEmpty_iff, hne]

/-- Concrete instantiation of the amended claim C1 at `retries = 2`. -/
theorem never_satisfied_executes_retries_times_witness :
    main [⟨"display version", none, none⟩] (fun _ _ => ["Cisco IOS"])
        (fun _ => some (fun _ => false)) ["result[0] contains HUAWEI"] .all 2 1 =
      ⟨.failed ["result[0] contains HUAWEI"], roundTrace 1 0 2⟩ ∧
    countExecs (roundTrace 1 0 2) = 2 ∧
    countSleeps (roundTrace 1 0 2) = 2 := by
  have h := never_satisfied_executes_retries_times
    [⟨"display version", none, none⟩] (fun _ _ => ["Cisco IOS"])
    (fun _ => some (fun _ => false)) ["result[0] contains HUAWEI"] .all 2 1
    [⟨0, "result[0] contains HUAWEI", fun _ => false⟩]
    rfl (by simp) (by intro n c hc; simp at hc; rw [hc])
  simpa using h

/-- Claim C1 is false as stated on the code: with a single never-satisfied
condition, at `retries = 1` there is exactly one execution call, not
`retries + 1 = 2`; and at `retries = 0` there are zero execution attempts,
not exactly one. -/
theorem retries_plus_one_refuted :
    countExecs (main [⟨"display version", none, none⟩] (fun _ _ => ["Cisco IOS"])
        (fun _ => some (fun _ => false)) ["result[0] contains HUAWEI"]
        .all 1 1).trace ≠ 1 + 1 ∧
    countExecs (main [⟨"display version", none, none⟩] (fun _ _ => ["Cisco IOS"])
        (fun _ => some (fun _ => false)) ["result[0] contains HUAWEI"]
        .all 0 1).trace ≠ 1 := by
  constructor
  · simp [main, mkConditionals, loop, evalRound, forRound, countExecs, List.filter_cons]
  · simp [main, mkConditionals, loop, countExecs]

/-- Claim C2: when `retries ≤ 0` the loop body never runs — the trace is
empty, so the command batch is never executed — and with an empty condition
list the success path reads the never-assigned `responses` variable, so the
run terminates with an unhandled error (`crash`) instead of a result. -/
theorem nonpositive_retries_never_executes_and_crashes
    (commands : List Command) (exec_fn : List Command → Nat → List String)
    (parse : String → Option (List String → Bool)) (wait_for : List String)
    (p : MatchPolicy) (retries interval : Int) (hr : retries ≤ 0) :
    (main commands exec_fn parse wait_for p retries interval).trace = [] ∧
    main commands exec_fn parse [] p retries interval = ⟨.crash, []⟩ := by
  constructor
  · cases hparse : mkConditionals parse 0 wait_for with
    | none => simp [main, hparse]
    | some conds =>
      simp only [main, hparse]
      rw [loop_nonpos _ _ _ _ _ _ _ _ hr]
      by_cases hc : conds.isEmpty <;> simp [hc]
  · simp only [main, mkConditionals]
    rw [loop_nonpos _ _ _ _ _ _ _ _ hr]
    simp

/-- Concrete instantiation of claim C2 at `retries = 0`. -/
theorem nonpositive_retries_never_executes_and_crashes_witness :
    (main [⟨"display version", none, none⟩] (fun _ _ => ["ok"])
        (fun _ => some (fun _ => true)) ["c"] .all 0 1).trace = [] ∧
    main [⟨"display version", none, none⟩] (fun _ _ => ["ok"])
        (fun _ => some (fun _ => true)) [] .all 0 1 = ⟨.crash, []⟩ :=
  nonpositive_retries_never_executes_and_crashes
    [⟨"display version", none, none⟩] (fun _ _ => ["ok"])
    (fun _ => some (fun _ => true)) ["c"] .all 0 1 (by decide)

/-- Claim C3, at the failing input: with `wait_for = []` and `retries = 0`
the run crashes after zero executions instead of succeeding after one; with
`retries = 5` and `interval = 9` it does succeed after exactly one execution
of the batch, so the claim's "regardless of the retries value" is exactly
what fails. -/
theorem empty_wait_for_zero_retries_crashes :
    main [⟨"display version", none, none⟩] (fun _ _ => ["HUAWEI VRP Software"])
        (fun _ => some (fun _ => true)) [] .all 0 1 = ⟨.crash, []⟩ ∧
    main [⟨"display version", none, none⟩] (fun _ _ => ["HUAWEI VRP Software"])
        (fun _ => some (fun _ => true)) [] .all 5 9 =
      ⟨.ok ["HUAWEI VRP Software"] (to_lines ["HUAWEI VRP Software"]), [.exec 0]⟩ := by
  constructor
  · simp [main, mkConditionals, loop]
  · simp [main, mkConditionals, loop, evalRound, forRound]

/-- Claim C4: under the ANY match policy, in any round (any loop state) where
some condition evaluates true — `pre` are the conditions evaluated before it,
all false — the outstanding set is cleared entirely, the remaining conditions
`post` of that round are not evaluated (the conclusion holds for every `post`,
whatever its tests), and the loop succeeds on that round with that round's
responses and no further sleep or execution. -/
theorem any_policy_short_circuits
    (exec_fn : Nat → List String) (interval retries : Int) (round : Nat)
    (resp : Option (List String)) (pre post : List Conditional)
    (item : Conditional) (tr : List Event) (hr : 0 < retries)
    (hpre : ∀ c ∈ pre, c.test (exec_fn round) = false)
    (hitem : item.test (exec_fn round) = true) :
    evalRound .any (exec_fn round) (pre ++ item :: post) = [] ∧
    loop exec_fn .any interval retries round resp (pre ++ item :: post) tr =
      ⟨[], some (exec_fn round), tr ++ [.exec round]⟩ := by
  have hev : evalRound .any (exec_fn round) (pre ++ item :: post) = [] :=
    forRound_any_sat (exec_fn round) item hitem pre post (pre ++ item :: post) hpre
  exact ⟨hev, loop_success exec_fn .any interval retries round resp _ tr hr hev⟩

/-- Concrete instantiation of claim C4 (scenario C of the spec): two
conditions under ANY, the first true, the second false, one round. -/
theorem any_policy_short_circuits_witness :
    evalRound .any (["HUAWEI VRP", "no board info"])
        ([] ++ ⟨0, "result[0] contains HUAWEI", fun rs =>
            (decide (rs.headD "" = "HUAWEI VRP"))⟩ ::
          [⟨1, "result[1] contains Board", fun _ => false⟩]) = [] ∧
    loop (fun _ => ["HUAWEI VRP", "no board info"]) .any 1 10 0 none
        ([] ++ ⟨0, "result[0] contains HUAWEI", fun rs =>
            (decide (rs.headD "" = "HUAWEI VRP"))⟩ ::
          [⟨1, "result[1] contains Board", fun _ => false⟩]) [] =
      ⟨[], some ["HUAWEI VRP", "no board info"], [] ++ [.exec 0]⟩ :=
  any_policy_short_circuits (fun _ => ["HUAWEI VRP", "no board info"]) 1 10 0 none
    [] [⟨1, "result[1] contains Board", fun _ => false⟩]
    ⟨0, "result[0] contains HUAWEI", fun rs =>
      (decide (rs.headD "" = "HUAWEI VRP"))⟩ []
    (by decide) (by intro c hc; exact absurd hc (List.not_mem_nil c)) (by decide)

/-- Claim C5: under the ALL match policy the outstanding condition set is
non-increasing from round to round across the whole run: the set after `n`
rounds is a sublist of the set after any earlier number of rounds (so its
size never grows), a condition satisfied in round `n` is removed and never
reappears in the outstanding set of any later round, and an unsatisfied
condition is left in place.  `outstandingFrom` iterates exactly the loop's
per-round transition (`loop_continue`), so this covers every round, not just
the first.  The distinct-object-identity hypothesis — needed for Python's
`list.remove` to behave this way — is preserved by every round (it is a
`Nodup` condition stable under filtering) and holds for every conditional
list the program builds, via `mkConditionals_idx_nodup`. -/
theorem all_policy_outstanding_monotone
    (exec_fn : Nat → List String) (conds : List Conditional)
    (hnd : (conds.map Conditional.idx).Nodup) :
    (∀ m n : Nat, m ≤ n →
      List.Sublist (outstandingFrom .all exec_fn 0 conds n)
        (outstandingFrom .all exec_fn 0 conds m)) ∧
    (∀ n : Nat, (outstandingFrom .all exec_fn 0 conds (n + 1)).length ≤
      (outstandingFrom .all exec_fn 0 conds n).length) ∧
    (∀ (n : Nat) (c : Conditional), c ∈ outstandingFrom .all exec_fn 0 conds n →
      c.test (exec_fn n) = true →
      ∀ k : Nat, n < k → c ∉ outstandingFrom .all exec_fn 0 conds k) ∧
    (∀ (n : Nat) (c : Conditional), c ∈ outstandingFrom .all exec_fn 0 conds n →
      c.test (exec_fn n) = false →
      c ∈ outstandingFrom .all exec_fn 0 conds (n + 1)) := by
  refine ⟨outstanding_all_sublist exec_fn conds hnd, ?_, ?_, ?_⟩
  · intro n
    exact (outstanding_all_sublist exec_fn conds hnd n (n + 1)
      (Nat.le_succ n)).length_le
  · intro n c _ ht k hk
    have hstep : c ∉ outstandingFrom .all exec_fn 0 conds (n + 1) := by
      rw [outstanding_all_filter_succ exec_fn conds hnd n]
      intro hmem
      rw [List.mem_filter, ht] at hmem
      simp at hmem
    intro hck
    exact hstep ((outstanding_all_sublist exec_fn conds hnd (n + 1) k hk).subset hck)
  · intro n c hc hcf
    rw [outstanding_all_filter_succ exec_fn conds hnd n, List.mem_filter, hcf]
    exact ⟨hc, rfl⟩

/-- Concrete instantiation of claim C5: two conditions, the first satisfied
in round 0 and gone from every later round, the second never satisfied and
kept round after round. -/
theorem all_policy_outstanding_monotone_witness :
    (∀ m n : Nat, m ≤ n →
      List.Sublist
        (outstandingFrom .all (fun n => if n = 0 then ["A"] else ["B"]) 0
          [⟨0, "a", fun rs => decide (rs.headD "" = "A")⟩,
            ⟨1, "b", fun _ => false⟩] n)
        (outstandingFrom .all (fun n => if n = 0 then ["A"] else ["B"]) 0
          [⟨0, "a", fun rs => decide (rs.headD "" = "A")⟩,
            ⟨1, "b", fun _ => false⟩] m)) ∧
    (∀ n : Nat,
      (outstandingFrom .all (fun n => if n = 0 then ["A"] else ["B"]) 0
        [⟨0, "a", fun rs => decide (rs.headD "" = "A")⟩,
          ⟨1, "b", fun _ => false⟩] (n + 1)).length ≤
      (outstandingFrom .all (fun n => if n = 0 then ["A"] else ["B"]) 0
        [⟨0, "a", fun rs => decide (rs.headD "" = "A")⟩,
          ⟨1, "b", fun _ => false⟩] n).length) ∧
    (∀ (n : Nat) (c : Conditional),
      c ∈ outstandingFrom .all (fun n => if n = 0 then ["A"] else ["B"]) 0
        [⟨0, "a", fun rs => decide (rs.headD "" = "A")⟩,
          ⟨1, "b", fun _ => false⟩] n →
      c.test ((fun n => if n = 0 then ["A"] else ["B"]) n) = true →
      ∀ k : Nat, n < k →
        c ∉ outstandingFrom .all (fun n => if n = 0 then ["A"] else ["B"]) 0
          [⟨0, "a", fun rs => decide (rs.headD "" = "A")⟩,
            ⟨1, "b", fun _ => false⟩] k) ∧
    (∀ (n : Nat) (c : Conditional),
      c ∈ outstandingFrom .all (fun n => if n = 0 then ["A"] else ["B"]) 0
        [⟨0, "a", fun rs => decide (rs.headD "" = "A")⟩,
          ⟨1, "b", fun _ => false⟩] n →
      c.test ((fun n => if n = 0 then ["A"] else ["B"]) n) = false →
      c ∈ outstandingFrom .all (fun n => if n = 0 then ["A"] else ["B"]) 0
        [⟨0, "a", fun rs => decide (rs.headD "" = "A")⟩,
          ⟨1, "b", fun _ => false⟩] (n + 1)) :=
  all_policy_outstanding_monotone (fun n => if n = 0 then ["A"] else ["B"])
    [⟨0, "a", fun rs => decide (rs.headD "" = "A")⟩, ⟨1, "b", fun _ => false⟩]
    (by decide)

/-- Claim C6: whenever the loop exits with a non-empty outstanding set (the
retry budget ran out), the run fails with the retry-exhaustion error whose
failed_conditions list is exactly the raw strings of every condition still
outstanding, in order. -/
theorem retry_exhaustion_reports_outstanding
    (commands : List Command) (exec_fn : List Command → Nat → List String)
    (parse : String → Option (List String → Bool)) (wait_for : List String)
    (p : MatchPolicy) (retries interval : Int) (conds : List Conditional)
    (hparse : mkConditionals parse 0 wait_for = some conds)
    (hne : (loop (exec_fn commands) p interval retries 0 none conds []).conditionals ≠ []) :
    main commands exec_fn parse wait_for p retries interval =
      ⟨.failed
          ((loop (exec_fn commands) p interval retries 0 none conds []).conditionals.map
            (fun item => item.raw)),
        (loop (exec_fn commands) p interval retries 0 none conds []).trace⟩ := by
  simp only [main, hparse]
  simp [List.isEmpty_iff, hne]

/-- Concrete instantiation of claim C6 (scenario B of the spec): a condition
that never matches, `retries = 2`, exhaustion failure carrying its raw
string. -/
theorem retry_exhaustion_reports_outstanding_witness :
    main [⟨"display version", none, none⟩] (fun _ _ => ["Cisco IOS"])
        (fun _ => some (fun rs => decide (rs.headD "" = "HUAWEI VRP")))
        ["result[0] contains HUAWEI"] .all 2 1 =
      ⟨.failed
          ((loop (fun _ => ["Cisco IOS"]) .all 1 2 0
              none [⟨0, "result[0] contains HUAWEI",
                fun rs => decide (rs.headD "" = "HUAWEI VRP")⟩] []).conditionals.map
            (fun item => item.raw)),
        (loop (fun _ => ["Cisco IOS"]) .all 1 2 0
            none [⟨0, "result[0] contains HUAWEI",
              fun rs => decide (rs.headD "" = "HUAWEI VRP")⟩] []).trace⟩ :=
  retry_exhaustion_reports_outstanding
    [⟨"display version", none, none⟩] (fun _ _ => ["Cisco IOS"])
    (fun _ => some (fun rs => decide (rs.headD "" = "HUAWEI VRP")))
    ["result[0] contains HUAWEI"] .all 2 1
    [⟨0, "result[0] contains HUAWEI", fun rs => decide (rs.headD "" = "HUAWEI VRP")⟩]
    (by rfl)
    (by simp [loop, evalRound, forRound])

/-- Claim C7: if any raw condition string fails to parse, the run aborts
immediately with the fatal input error — distinct from retry exhaustion —
with an empty trace: no command execution ever occurs and no retry is
attempted. -/
theorem parse_failure_aborts_before_execution
    (commands : List Command) (exec_fn : List Command → Nat → List String)
    (parse : String → Option (List String → Bool)) (wait_for : List String)
    (p : MatchPolicy) (retries interval : Int) (s : String)
    (hs : s ∈ wait_for) (hp : parse s = none) :
    main commands exec_fn parse wait_for p retries interval =
      ⟨.invalidCondition, []⟩ := by
  simp only [main, mkConditionals_none_of_mem parse wait_for s hs hp 0]

/-- Concrete instantiation of claim C7: the second of two condition strings
fails to parse; the run reports the fatal input error with an empty trace. -/
theorem parse_failure_aborts_before_execution_witness :
    main [⟨"display version", none, none⟩] (fun _ _ => ["HUAWEI VRP"])
        (fun s => if s = "bogus ~~~ junk" then none else some (fun _ => true))
        ["result[0] contains HUAWEI", "bogus ~~~ junk"] .all 10 1 =
      ⟨.invalidCondition, []⟩ :=
  parse_failure_aborts_before_execution
    [⟨"display version", none, none⟩] (fun _ _ => ["HUAWEI VRP"])
    (fun s => if s = "bogus ~~~ junk" then none else some (fun _ => true))
    ["result[0] contains HUAWEI", "bogus ~~~ junk"] .all 10 1
    "bogus ~~~ junk" (by simp) (by simp)

/-- Claim C8: from any loop state with `retries > 0`, a round whose
evaluation leaves the outstanding set non-empty is followed by a sleep of
`interval` seconds and then the decrement of the remaining retries, in that
order (the appended events are `.exec`, `.sleep interval`, `.decr` and the
continuation runs with `retries - 1`); this holds even when `retries = 1`,
i.e. on the last iteration before the counter reaches zero.  A round that
satisfies the policy ends the loop with only its execution event appended:
no sleep follows a successful round. -/
theorem round_sleep_then_decrement
    (exec_fn : Nat → List String) (p : MatchPolicy) (interval retries : Int)
    (round : Nat) (resp : Option (List String)) (conds : List Conditional)
    (tr : List Event) (hr : 0 < retries) :
    (evalRound p (exec_fn round) conds ≠ [] →
      loop exec_fn p interval retries round resp conds tr =
        loop exec_fn p interval (retries - 1) (round + 1) (some (exec_fn round))
          (evalRound p (exec_fn round) conds)
          (tr ++ [.exec round, .sleep interval, .decr])) ∧
    (evalRound p (exec_fn round) conds = [] →
      loop exec_fn p interval retries round resp conds tr =
        ⟨[], some (exec_fn round), tr ++ [.exec round]⟩) :=
  ⟨fun hne => loop_continue exec_fn p interval retries round resp conds tr hr hne,
    fun hsat => loop_success exec_fn p interval retries round resp conds tr hr hsat⟩

/-- Concrete instantiation of claim C8: an unsatisfied round at `retries = 1`
(the last iteration) still sleeps and decrements, and a satisfied round
appends no sleep. -/
theorem round_sleep_then_decrement_witness :
    (loop (fun _ => ["x"]) .all 7 1 0 none [⟨0, "c", fun _ => false⟩] [] =
      loop (fun _ => ["x"]) .all 7 0 1 (some ["x"])
        (evalRound .all ["x"] [⟨0, "c", fun _ => false⟩])
        ([] ++ [.exec 0, .sleep 7, .decr])) ∧
    (loop (fun _ => ["y"]) .any 7 1 0 none [⟨0, "c", fun _ => true⟩] [] =
      ⟨[], some ["y"], [] ++ [.exec 0]⟩) := by
  constructor
  · exact (round_sleep_then_decrement (fun _ => ["x"]) .all 7 1 0 none
      [⟨0, "c", fun _ => false⟩] [] (by decide)).1 (by simp [evalRound, forRound])
  · exact (round_sleep_then_decrement (fun _ => ["y"]) .any 7 1 0 none
      [⟨0, "c", fun _ => true⟩] [] (by decide)).2 (by simp [evalRound, forRound])

/-- Claim C9: on success the run returns the ResponseSet of the round that
satisfied the match policy as `stdout`, together with `stdout_lines` in which
each element of that ResponseSet is split on the newline character.  The
satisfying round is an arbitrary round `k` still inside the retry budget:
rounds `0 .. k-1` all leave the outstanding set non-empty (their ResponseSets
`exec_fn commands 0 .. exec_fn commands (k-1)` are executed, then discarded)
and round `k`'s evaluation empties it, so the returned responses are exactly
round `k`'s — the trace shows the `k` earlier rounds and the final
execution. -/
theorem success_returns_responses_and_lines
    (commands : List Command) (exec_fn : List Command → Nat → List String)
    (parse : String → Option (List String → Bool)) (wait_for : List String)
    (p : MatchPolicy) (retries interval : Int) (conds : List Conditional)
    (k : Nat)
    (hparse : mkConditionals parse 0 wait_for = some conds)
    (hk : (k : Int) < retries)
    (hprev : ∀ j : Nat, j < k →
      evalRound p (exec_fn commands j)
        (outstandingFrom p (exec_fn commands) 0 conds j) ≠ [])
    (hsat : evalRound p (exec_fn commands k)
      (outstandingFrom p (exec_fn commands) 0 conds k) = []) :
    main commands exec_fn parse wait_for p retries interval =
      ⟨.ok (exec_fn commands k) (to_lines (exec_fn commands k)),
        roundTrace interval 0 k ++ [.exec k]⟩ ∧
    to_lines (exec_fn commands k) =
      (exec_fn commands k).map (fun item => item.splitOn "\n") := by
  refine ⟨?_, rfl⟩
  simp only [main, hparse]
  rw [loop_success_after (exec_fn commands) p interval k retries 0 conds none []
    hk (by simpa using hprev) (by simpa using hsat)]
  simp

/-- Concrete instantiation of claim C9: round 0 returns a non-matching
ResponseSet and leaves the condition outstanding; round 1 satisfies it, and
the run returns round 1's responses (not round 0's) with their newline-split
view, after one sleep-and-retry. -/
theorem success_returns_responses_and_lines_witness :
    main [⟨"display version", none, none⟩]
        (fun _ n => if n = 0 then ["Cisco IOS"] else ["HUAWEI VRP\nSoftware"])
        (fun _ => some (fun rs => decide (rs.headD "" = "HUAWEI VRP\nSoftware")))
        ["result[0] contains HUAWEI"] .all 10 1 =
      ⟨.ok ["HUAWEI VRP\nSoftware"] (to_lines ["HUAWEI VRP\nSoftware"]),
        roundTrace 1 0 1 ++ [.exec 1]⟩ ∧
    to_lines ["HUAWEI VRP\nSoftware"] =
      (["HUAWEI VRP\nSoftware"] : List String).map (fun item => item.splitOn "\n") := by
  have h := success_returns_responses_and_lines
    [⟨"display version", none, none⟩]
    (fun _ n => if n = 0 then ["Cisco IOS"] else ["HUAWEI VRP\nSoftware"])
    (fun _ => some (fun rs => decide (rs.headD "" = "HUAWEI VRP\nSoftware")))
    ["result[0] contains HUAWEI"] .all 10 1
    [⟨0, "result[0] contains HUAWEI",
      fun rs => decide (rs.headD "" = "HUAWEI VRP\nSoftware")⟩]
    1 (by rfl) (by decide)
    (by
      intro j hj
      have hj0 : j = 0 := by omega
      subst hj0
      simp [outstandingFrom, evalRound, forRound])
    (by simp [outstandingFrom, evalRound, forRound, removeById])
  simpa using h

/-- Claim C10: two runs with identical inputs against deterministic execution
collaborators that return the same ResponseSet every round produce identical
outputs — in particular the same success-or-failure verdict and, on failure,
the same failed_conditions list. -/
theorem deterministic_runs_agree
    (commands : List Command) (exec1 exec2 : List Command → Nat → List String)
    (parse : String → Option (List String → Bool)) (wait_for : List String)
    (p : MatchPolicy) (retries interval : Int) (rs : List String)
    (h1 : ∀ n, exec1 commands n = rs) (h2 : ∀ n, exec2 commands n = rs) :
    main commands exec1 parse wait_for p retries interval =
      main commands exec2 parse wait_for p retries interval := by
  have h : exec1 commands = exec2 commands :=
    funext fun n => (h1 n).trans (h2 n).symm
  simp only [main, h]

/-- Concrete instantiation of claim C10: two syntactically different but
extensionally equal deterministic collaborators give identical run outputs. -/
theorem deterministic_runs_agree_witness :
    main [⟨"display version", none, none⟩] (fun _ _ => ["Cisco IOS"])
        (fun _ => some (fun _ => false)) ["result[0] contains HUAWEI"] .all 3 1 =
      main [⟨"display version", none, none⟩]
        (fun _ n => (fun _ => ["Cisco IOS"]) n)
        (fun _ => some (fun _ => false)) ["result[0] contains HUAWEI"] .all 3 1 :=
  deterministic_runs_agree
    [⟨"display version", none, none⟩] (fun _ _ => ["Cisco IOS"])
    (fun _ n => (fun _ => ["Cisco IOS"]) n)
    (fun _ => some (fun _ => false)) ["result[0] contains HUAWEI"] .all 3 1
    ["Cisco IOS"] (fun _ => rfl) (fun _ => rfl)

end NeCommand
